import Mathlib

/-!
Verification of the andrewzc-api server (three express/mongo server variants).

The admin session machinery (login, session middleware, logout, introspection)
lives in the full server source; the minimal server variant only serves
GET /pages/:id. Database collections are embedded as Lean lists, the mongo
query operations as list functions, and each HTTP handler as a pure function
from the store state and request data to a response and the updated store.
Randomness (session tokens) and wall-clock times are passed as explicit
arguments; the fire-and-forget lastSeenAt update and the introspection
store-failure path are modelled by explicit success flags.
-/

namespace AndrewzcApi

/-! String helpers, written over character lists so that every comparison
evaluates by kernel reduction. -/

/-- Lexicographic strict comparison of character lists (code-point order). -/
def charListLt : List Char → List Char → Bool
  | [], [] => false
  | [], _ :: _ => true
  | _ :: _, [] => false
  | a :: as, b :: bs => decide (a < b) || (a == b && charListLt as bs)

/-- Strict lexicographic order on strings, used to model the document
store sort comparator on string fields. -/
def strLt (a b : String) : Bool := charListLt a.data b.data

/-- Reflexive lexicographic order on strings. -/
def strLe (a b : String) : Bool := strLt a b || a == b

/-- Lexicographic order on a (name, key) pair of string fields: name first,
key second.  Models a store sort specification of name ascending then key
ascending. -/
def strPairLe (n1 k1 n2 k2 : String) : Bool :=
  strLt n1 n2 || (n1 == n2 && strLe k1 k2)

/-- Splits a character list on a separator character, JS String.split style:
the empty input yields one empty token, adjacent separators yield empty
tokens. -/
def splitOnCharAux (sep : Char) : List Char → List Char → List String
  | [], acc => [String.mk acc.reverse]
  | c :: rest, acc =>
    if c == sep then String.mk acc.reverse :: splitOnCharAux sep rest []
    else splitOnCharAux sep rest (c :: acc)

/-- Splits a string on a separator character. -/
def splitOnChar (sep : Char) (s : String) : List String :=
  splitOnCharAux sep s.data []

/-- Uppercases every character of a string (models JS toUpperCase on the
ASCII range). -/
def upperStr (s : String) : String := String.mk (s.data.map Char.toUpper)

/-- Joins a list of strings with single spaces (models Array.join with a
space separator). -/
def joinSpace : List String → String
  | [] => ""
  | [w] => w
  | w :: rest => w ++ " " ++ joinSpace rest

/-! A stable comparison sort, modelling the document store sort stage.  The
store promises any order consistent with the comparator; a stable insertion
sort is the determinization used here. -/

/-- Inserts an element in front of the first list element it compares at or
below. -/
def orderedInsert (le : α → α → Bool) (a : α) : List α → List α
  | [] => [a]
  | b :: l => if le a b then a :: b :: l else b :: orderedInsert le a l

/-- Stable insertion sort by a boolean comparator. -/
def sortBy (le : α → α → Bool) : List α → List α
  | [] => []
  | a :: l => orderedInsert le a (sortBy le l)

/-- Boolean check that adjacent elements of a list are ordered by the
comparator. -/
def isSortedBy (le : α → α → Bool) : List α → Bool
  | [] => true
  | [_] => true
  | a :: b :: l => le a b && isSortedBy le (b :: l)

/-! Admin accounts and sessions data model. -/

/-- An account document in the accounts collection. -/
structure Account where
  accountId : Nat
  username : String
  passwordHash : String
  roles : List String
  disabled : Bool
  createdAt : Nat
  updatedAt : Nat
deriving DecidableEq

/-- A token digest value.  Modelled from the spec: the digest is computed by
the crypto library HMAC-SHA-256 primitive, which is outside this repository;
it is idealized here as a collision-free keyed digest, so a digest value is
represented by the (secret, token) pair it was computed from and two digests
are equal exactly when both secret and token agree. -/
abbrev TokenHash := String × String

/-- Keyed digest of a raw session token under the server pepper.  Mirrors
sessionTokenToHash in the source, under the ideal collision-free model of
the HMAC primitive described at TokenHash. -/
def sessionTokenToHash (pepper token : String) : TokenHash := (pepper, token)

/-- Modelled from the spec: the argon2id hash of a password, an external
library primitive, idealized as a collision-free tagged encoding. -/
def argon2Hash (password : String) : String := "argon2id" ++ password

/-- Modelled from the spec: argon2 verification succeeds exactly when the
stored hash is the hash of the candidate password. -/
def argon2Verify (storedHash password : String) : Bool :=
  storedHash == argon2Hash password

/-- A session document in the sessions collection. -/
structure Session where
  sessionId : Nat
  accountId : Nat
  sessionTokenHash : TokenHash
  createdAt : Nat
  lastSeenAt : Nat
  revokedAt : Option Nat
  label : Option String
  ip : Option String
  userAgent : Option String
deriving DecidableEq

/-- The mutable store state seen by the admin auth endpoints: the accounts
and sessions collections, plus the id counter standing in for fresh mongo
object id generation. -/
structure DBState where
  accounts : List Account
  sessions : List Session
  nextSessionId : Nat
deriving DecidableEq

/-- Error payloads: the error and message fields of a JSON error response. -/
structure ErrorBody where
  error : String
  message : String
deriving DecidableEq

/-- An HTTP response: either a success status with an endpoint-specific body
or an error status with an error body. -/
inductive ApiResponse (α : Type) where
  | ok (status : Nat) (body : α)
  | err (status : Nat) (body : ErrorBody)
deriving DecidableEq

/-- Body of a successful login response: the ok flag of the JSON body and
the raw token placed in the admin_session cookie. -/
structure LoginOk where
  ok : Bool
  cookieToken : String
deriving DecidableEq

/-- Body of a successful logout response (the cookie is also cleared). -/
structure LogoutOk where
  ok : Bool
deriving DecidableEq

/-- Body of the session introspection response. -/
structure MeBody where
  authenticated : Bool
deriving DecidableEq

/-- Outcome of the admin session middleware: either control passes to the
downstream handler with the resolved account and session ids attached to the
request, or the middleware halts the request with an error response. -/
inductive AuthOutcome where
  | next (accountId sessionId : Nat)
  | halt (status : Nat) (body : ErrorBody)
deriving DecidableEq

/-- JS falsiness of an optional string request field: absent or empty. -/
def falsyOptStr : Option String → Bool
  | none => true
  | some s => s == ""

/-- The findOne filter used by login: username matches and disabled is
false. -/
def loginQuery (username : String) (a : Account) : Bool :=
  a.username == username && a.disabled == false

/-- The findOne filter used by the middleware and introspection: token hash
matches and revokedAt is null. -/
def sessionQuery (h : TokenHash) (s : Session) : Bool :=
  s.sessionTokenHash == h && s.revokedAt == none

/-- The session document inserted by a successful login. -/
def mkNewSession (pepper : String) (accountId sid : Nat) (token : String)
    (now : Nat) (label ip userAgent : Option String) : Session :=
  { sessionId := sid
    accountId := accountId
    sessionTokenHash := sessionTokenToHash pepper token
    createdAt := now
    lastSeenAt := now
    revokedAt := none
    label := label
    ip := ip
    userAgent := userAgent }

/-- POST admin login.  The fresh random token is an explicit argument.  The
sessions collection carries a unique index on sessionTokenHash, so inserting
a session whose digest already occurs throws a duplicate-key error, which the
handler catch turns into a 500 response. -/
def postLogin (pepper : String) (st : DBState)
    (username password label : Option String) (newToken : String) (now : Nat)
    (ip userAgent : Option String) : ApiResponse LoginOk × DBState :=
  if falsyOptStr username || falsyOptStr password then
    (.err 400 ⟨"bad_request", "Missing username or password"⟩, st)
  else
    match st.accounts.find? (loginQuery (username.getD "")) with
    | none => (.err 401 ⟨"unauthorized", "Invalid credentials"⟩, st)
    | some account =>
      if !argon2Verify account.passwordHash (password.getD "") then
        (.err 401 ⟨"unauthorized", "Invalid credentials"⟩, st)
      else
        if st.sessions.any (fun s =>
            s.sessionTokenHash == sessionTokenToHash pepper newToken) then
          (.err 500 ⟨"internal_error", "E11000 duplicate key error"⟩, st)
        else
          (.ok 200 ⟨true, newToken⟩,
            { st with
              sessions := st.sessions ++
                [mkNewSession pepper account.accountId st.nextSessionId
                  newToken now label ip userAgent]
              nextSessionId := st.nextSessionId + 1 })

/-- Updates the lastSeenAt field of the first session with the given id,
modelling updateOne by document id. -/
def touchFirstById : List Session → Nat → Nat → List Session
  | [], _, _ => []
  | s :: rest, sid, now =>
    if s.sessionId == sid then { s with lastSeenAt := now } :: rest
    else s :: touchFirstById rest sid now

/-- The requireAdminSession middleware.  The best-effort lastSeenAt touch may
fail; touchOk says whether it succeeded, and its failure is swallowed. -/
def requireAdminSession (pepper : String) (st : DBState)
    (cookie : Option String) (now : Nat) (touchOk : Bool) :
    AuthOutcome × DBState :=
  if falsyOptStr cookie then
    (.halt 401 ⟨"unauthorized", "Missing admin session"⟩, st)
  else
    match st.sessions.find?
      (sessionQuery (sessionTokenToHash pepper (cookie.getD ""))) with
    | none => (.halt 401 ⟨"unauthorized", "Invalid or revoked session"⟩, st)
    | some s =>
      (.next s.accountId s.sessionId,
        if touchOk then
          { st with sessions := touchFirstById st.sessions s.sessionId now }
        else st)

/-- Sets revokedAt on the first session whose token hash matches, modelling
the logout updateOne by sessionTokenHash. -/
def revokeFirstByHash : List Session → TokenHash → Nat → List Session
  | [], _, _ => []
  | s :: rest, h, now =>
    if s.sessionTokenHash == h then { s with revokedAt := some now } :: rest
    else s :: revokeFirstByHash rest h now

/-- POST admin logout: the middleware runs first; on success the session
matching the freshly recomputed digest is revoked and the cookie cleared. -/
def postLogout (pepper : String) (st : DBState) (cookie : Option String)
    (now touchNow : Nat) (touchOk : Bool) : ApiResponse LogoutOk × DBState :=
  match requireAdminSession pepper st cookie touchNow touchOk with
  | (.halt status body, st1) => (.err status body, st1)
  | (.next _ _, st1) =>
    (.ok 200 ⟨true⟩,
      { st1 with
        sessions := revokeFirstByHash st1.sessions
          (sessionTokenToHash pepper (cookie.getD "")) now })

/-- GET admin me, the session introspection endpoint.  storeOk says whether
the store interaction succeeded; the catch collapses a store failure to an
unauthenticated answer. -/
def getMe (pepper : String) (st : DBState) (cookie : Option String)
    (storeOk : Bool) : ApiResponse MeBody :=
  if falsyOptStr cookie then .ok 200 ⟨false⟩
  else if !storeOk then .ok 200 ⟨false⟩
  else
    .ok 200 ⟨st.sessions.any
      (sessionQuery (sessionTokenToHash pepper (cookie.getD "")))⟩

/-! A small operation machine over the session store: every server operation
that can read or write the accounts or sessions collections, used to state
temporal properties.  The content endpoints touch only the pages and
entities collections and so are identity steps on this state. -/

/-- One server operation touching the session store.  The auth operation
stands for the middleware invocation of any admin-gated endpoint. -/
inductive AdminOp where
  | login (username password label : Option String) (newToken : String)
      (now : Nat) (ip userAgent : Option String)
  | auth (cookie : Option String) (now : Nat) (touchOk : Bool)
  | logout (cookie : Option String) (now touchNow : Nat) (touchOk : Bool)
  | me (cookie : Option String) (storeOk : Bool)

/-- The state transition of one operation. -/
def stepOp (pepper : String) (st : DBState) : AdminOp → DBState
  | .login u p l tok now ip ua => (postLogin pepper st u p l tok now ip ua).2
  | .auth cookie now touchOk =>
      (requireAdminSession pepper st cookie now touchOk).2
  | .logout cookie now touchNow touchOk =>
      (postLogout pepper st cookie now touchNow touchOk).2
  | .me _ _ => st

/-- Runs a list of operations from a state. -/
def runOps (pepper : String) (st : DBState) : List AdminOp → DBState
  | [] => st
  | op :: ops => runOps pepper (stepOp pepper st op) ops

/-- Hash and revocation status of a session, the two fields the session
query inspects that outlive every update. -/
def sessionHR (s : Session) : TokenHash × Option Nat :=
  (s.sessionTokenHash, s.revokedAt)

/-- The given digest occurs in the session list and every session carrying
it is revoked. -/
def HashRevoked (H : TokenHash) (l : List Session) : Prop :=
  (∃ s ∈ l, s.sessionTokenHash = H) ∧
  ∀ s ∈ l, s.sessionTokenHash = H → s.revokedAt ≠ none

/-- The digest of the given raw token occurs in the sessions collection and
every session carrying it is revoked.  Once this holds, the token can never
authenticate again. -/
def RevokedForever (pepper raw : String) (st : DBState) : Prop :=
  HashRevoked (sessionTokenToHash pepper raw) st.sessions

/-! Content data model: pages and entities as consumed by the read-only
endpoints. -/

/-- A page document. -/
structure PageDoc where
  id : Nat
  key : String
  name : String
deriving DecidableEq

/-- An entity document, with the fields the read-only endpoints query and
sort on. -/
structure EntityDoc where
  id : Nat
  list : String
  key : String
  name : String
  city : Option String
  country : Option String
  countries : List String
deriving DecidableEq

/-- The content collections. -/
structure ContentState where
  pages : List PageDoc
  entities : List EntityDoc
deriving DecidableEq

/-- Sort comparator of the full server content endpoints: name ascending
then key ascending. -/
def nameKeyLe (a b : EntityDoc) : Bool := strPairLe a.name a.key b.name b.key

/-- Same comparator for page documents. -/
def pageNameKeyLe (a b : PageDoc) : Bool := strPairLe a.name a.key b.name b.key

/-- Sort comparator of the minimal server GET pages-by-id endpoint: name
ascending only. -/
def nameLe (a b : EntityDoc) : Bool := strLe a.name b.name

/-- Body of a successful GET pages-by-id response: page info plus its
entities. -/
structure PagesIdBody where
  info : PageDoc
  entities : List EntityDoc
deriving DecidableEq

/-- Body of the country and city endpoints: the hoisted canonical entity, if
any, and the remaining entities. -/
structure HoistBody where
  hoisted : Option EntityDoc
  entities : List EntityDoc
deriving DecidableEq

/-- Removes the first entity satisfying the predicate from the list and
returns it alongside the remainder, modelling the findIndex plus filter
hoisting step. -/
def hoistFirst (p : EntityDoc → Bool) : List EntityDoc →
    Option EntityDoc × List EntityDoc
  | [] => (none, [])
  | d :: rest =>
    if p d then (some d, rest)
    else ((hoistFirst p rest).1, d :: (hoistFirst p rest).2)

/-- GET pages: all pages sorted by name then key (full server variants). -/
def getPages (st : ContentState) : ApiResponse (List PageDoc) :=
  .ok 200 (sortBy pageNameKeyLe st.pages)

/-- GET pages by id (full server variants): the page with the given key and
its entities sorted by name then key. -/
def getPagesId (st : ContentState) (id : String) : ApiResponse PagesIdBody :=
  match st.pages.find? (fun p => p.key == id) with
  | none => .err 404 ⟨"page_not_found", "No page found for key=" ++ id⟩
  | some p =>
    .ok 200 ⟨p, sortBy nameKeyLe (st.entities.filter (fun e => e.list == id))⟩

/-- GET pages by id in the minimal server variant: identical except that the
sort specification is name ascending only. -/
def serverJsGetPagesId (st : ContentState) (id : String) :
    ApiResponse PagesIdBody :=
  match st.pages.find? (fun p => p.key == id) with
  | none => .err 404 ⟨"page_not_found", "No page found for key=" ++ id⟩
  | some p =>
    .ok 200 ⟨p, sortBy nameLe (st.entities.filter (fun e => e.list == id))⟩

/-- The documents matched by GET countries: entities carrying the code in
country or countries, sorted by name then key. -/
def countryDocs (st : ContentState) (code : String) : List EntityDoc :=
  sortBy nameKeyLe (st.entities.filter
    (fun e => e.country == some code || e.countries.contains code))

/-- GET countries by code: the matched documents with the canonical country
entity hoisted out. -/
def getCountries (st : ContentState) (code0 : String) : ApiResponse HoistBody :=
  if upperStr code0 == "" then .err 400 ⟨"bad_request", "Missing country code"⟩
  else
    .ok 200
      ⟨(hoistFirst (fun e => e.list == "countries")
          (countryDocs st (upperStr code0))).1,
       (hoistFirst (fun e => e.list == "countries")
          (countryDocs st (upperStr code0))).2⟩

/-! City key formatting. -/

/-- Title-cases one word: lowercase everything, uppercase the first
character, following toTitleCaseWord in the source. -/
def toTitleCaseWord (w : String) : String :=
  match w.data with
  | [] => w
  | c :: cs => String.mk (Char.toUpper (Char.toLower c) :: cs.map Char.toLower)

/-- The non-empty dash-separated tokens of a city key. -/
def tokensOfKey (key : String) : List String :=
  (splitOnChar '-' key).filter (fun t => !t.isEmpty)

/-- Converts a dashed city key to the stored display name, following
cityKeyToDisplayName in the source: if the last token is two characters long
and is not the only token it is treated as a state code. -/
def cityKeyToDisplayName (key : String) : String :=
  if (tokensOfKey key).isEmpty then ""
  else if ((tokensOfKey key).getLastD "").length == 2 &&
      !(tokensOfKey key).dropLast.isEmpty then
    joinSpace ((tokensOfKey key).dropLast.map toTitleCaseWord) ++ ", " ++
      upperStr ((tokensOfKey key).getLastD "")
  else
    joinSpace ((tokensOfKey key).map toTitleCaseWord)

/-- The city key formatting exactly as the claim states it, written
independently from the claim text for comparison with the source
translation: split on dashes, drop empty tokens; with at least two tokens
and a two-character final token, title-case and space-join the leading
tokens and append a comma, a space and the uppercased final token;
otherwise title-case and space-join all tokens. -/
def cityKeyClaimedName (key : String) : String :=
  if decide (2 ≤ (tokensOfKey key).length) &&
      ((tokensOfKey key).getLastD "").length == 2 then
    joinSpace ((tokensOfKey key).dropLast.map toTitleCaseWord) ++ ", " ++
      upperStr ((tokensOfKey key).getLastD "")
  else
    joinSpace ((tokensOfKey key).map toTitleCaseWord)

/-- The documents matched by GET cities: entities whose city field equals
the display name derived from the key, sorted by name then key. -/
def cityDocs (st : ContentState) (city : String) : List EntityDoc :=
  sortBy nameKeyLe (st.entities.filter (fun e => e.city == some city))

/-- GET cities by key: the matched documents with the canonical city entity
hoisted out; an empty display name is a bad request. -/
def getCities (st : ContentState) (key : String) : ApiResponse HoistBody :=
  if cityKeyToDisplayName key == "" then
    .err 400 ⟨"bad_request", "Missing city key"⟩
  else
    .ok 200
      ⟨(hoistFirst (fun e => e.list == "cities")
          (cityDocs st (cityKeyToDisplayName key))).1,
       (hoistFirst (fun e => e.list == "cities")
          (cityDocs st (cityKeyToDisplayName key))).2⟩

/-! Entity write endpoints over raw JSON documents, since the request body
is client-controlled JSON of any shape. -/

/-- A JSON scalar value as stored in an entity document field. -/
inductive JVal where
  | null : JVal
  | bool (b : Bool) : JVal
  | num (n : Int) : JVal
  | str (s : String) : JVal
deriving DecidableEq

/-- A JSON object: an association list of fields. -/
abbrev JObj := List (String × JVal)

/-- Reads a field of an object. -/
def getField : JObj → String → Option JVal
  | [], _ => none
  | (k, v) :: rest, f => if k == f then some v else getField rest f

/-- Writes a field of an object, replacing an existing field in place or
appending a new one, like a JS property assignment. -/
def setField : JObj → String → JVal → JObj
  | [], f, v => [(f, v)]
  | (k, w) :: rest, f, v =>
    if k == f then (f, v) :: rest else (k, w) :: setField rest f v

/-- Deletes a field of an object, like the JS delete operator. -/
def delField : JObj → String → JObj
  | [], _ => []
  | (k, w) :: rest, f =>
    if k == f then delField rest f else (k, w) :: delField rest f

/-- JS falsiness of an optional field value. -/
def jsFalsy : Option JVal → Bool
  | none => true
  | some .null => true
  | some (.bool b) => !b
  | some (.num n) => n == 0
  | some (.str s) => s == ""

/-- Applies a set-style update: every field of the patch is written into the
document. -/
def applySet (doc : JObj) (patch : JObj) : JObj :=
  patch.foldl (fun d kv => setField d kv.1 kv.2) doc

/-- Drops the store id field for serialization, modelling stripMongoId. -/
def stripId (d : JObj) : JObj := delField d "_id"

/-- The findOne filter on the entities collection by list and key. -/
def entMatches (list key : String) (d : JObj) : Bool :=
  decide (getField d "list" = some (.str list)) &&
  decide (getField d "key" = some (.str key))

/-- The request body with the list and key fields forced to the path
parameters and updatedAt stamped. -/
def entityStamped (body : JObj) (list key : String) (now : Int) : JObj :=
  setField (setField (setField body "list" (.str list)) "key" (.str key))
    "updatedAt" (.num now)

/-- The document inserted by POST entities: the stamped body, with
createdAt stamped as well when the body carries no truthy createdAt. -/
def entityPayload (body : JObj) (list key : String) (now : Int) : JObj :=
  if jsFalsy (getField (entityStamped body list key now) "createdAt") then
    setField (entityStamped body list key now) "createdAt" (.num now)
  else entityStamped body list key now

/-- POST entities by list and key (admin-gated; this models the handler body
after the middleware has passed). -/
def postEntity (st : List JObj) (list key : String) (body : JObj)
    (now : Int) : ApiResponse JObj × List JObj :=
  if list == "" || key == "" then
    (.err 400 ⟨"bad_request", "Missing list or key"⟩, st)
  else if (st.find? (entMatches list key)).isSome then
    (.err 409 ⟨"conflict", "Entity already exists"⟩, st)
  else
    (.ok 201 (stripId (entityPayload body list key now)),
      st ++ [entityPayload body list key now])

/-- Finds the first document matching the filter, applies the set-style
update to it, and returns the updated document together with the updated
collection, modelling findOneAndUpdate returning the after-document. -/
def findOneAndUpdateSet : List JObj → (JObj → Bool) → JObj →
    Option (JObj × List JObj)
  | [], _, _ => none
  | d :: rest, q, setDoc =>
    if q d then some (applySet d setDoc, applySet d setDoc :: rest)
    else
      match findOneAndUpdateSet rest q setDoc with
      | none => none
      | some (r, rest2) => some (r, d :: rest2)

/-- The patch applied by PUT entities: the body with the identifier fields
removed, plus a fresh updatedAt stamp. -/
def putPatch (body : JObj) (now : Int) : JObj :=
  setField (delField (delField (delField body "_id") "list") "key")
    "updatedAt" (.num now)

/-- PUT entities by list and key (admin-gated; this models the handler body
after the middleware has passed). -/
def putEntity (st : List JObj) (list key : String) (body : JObj)
    (now : Int) : ApiResponse JObj × List JObj :=
  if list == "" || key == "" then
    (.err 400 ⟨"bad_request", "Missing list or key"⟩, st)
  else
    match findOneAndUpdateSet st (entMatches list key) (putPatch body now) with
    | none => (.err 404 ⟨"not_found", "Entity not found"⟩, st)
    | some (d2, st2) => (.ok 200 (stripId d2), st2)

/-! Concrete exhibit states used to evaluate the verified properties on
closed inputs. -/

/-- A non-disabled admin account whose stored hash verifies the password
string correct. -/
def exAccount : Account :=
  { accountId := 1, username := "admin", passwordHash := argon2Hash "correct",
    roles := ["admin"], disabled := false, createdAt := 0, updatedAt := 0 }

/-- A store holding the one admin account and no sessions. -/
def exDB : DBState := { accounts := [exAccount], sessions := [], nextSessionId := 10 }

/-- A store with no accounts and no sessions. -/
def exEmptyDB : DBState := { accounts := [], sessions := [], nextSessionId := 0 }

/-- An active session for the raw token tok under the pepper pep. -/
def exSessionActive : Session :=
  { sessionId := 1, accountId := 4,
    sessionTokenHash := sessionTokenToHash "pep" "tok",
    createdAt := 0, lastSeenAt := 0, revokedAt := none,
    label := none, ip := none, userAgent := none }

/-- A store holding just the active session. -/
def exDBActive : DBState :=
  { accounts := [], sessions := [exSessionActive], nextSessionId := 2 }

/-- The same store after that session is revoked at time 7. -/
def exDBRevoked : DBState :=
  { accounts := [],
    sessions := [{ exSessionActive with revokedAt := some 7 }],
    nextSessionId := 2 }

/-- A page document with key p. -/
def exPage : PageDoc := { id := 1, key := "p", name := "P" }

/-- An entity on list p with key z; its name ties with the next entity. -/
def exEntityZ : EntityDoc :=
  { id := 2, list := "p", key := "z", name := "alpha",
    city := none, country := none, countries := [] }

/-- An entity on list p with key b, same name as the previous entity. -/
def exEntityB : EntityDoc :=
  { id := 3, list := "p", key := "b", name := "alpha",
    city := none, country := none, countries := [] }

/-- A content store where two entities of page p share a name, so a
name-only sort cannot order their keys. -/
def exContent : ContentState :=
  { pages := [exPage], entities := [exEntityZ, exEntityB] }

/-- A stored entity document with identifier fields. -/
def exStoredEnt : JObj :=
  [("_id", JVal.num 1), ("list", JVal.str "l"), ("key", JVal.str "k"),
   ("name", JVal.str "old")]

/-- A request body that tries to overwrite the identifier fields. -/
def exEntBody : JObj :=
  [("list", JVal.str "evil"), ("_id", JVal.num 9), ("name", JVal.str "new")]

/-! Order lemmas for the string comparators. -/

/-- Transitivity of the character list order. -/
theorem charListLt_trans {a : List Char} : ∀ {b c : List Char},
    charListLt a b = true → charListLt b c = true → charListLt a c = true := by
  induction a with
  | nil =>
    intro b c h1 h2
    cases b with
    | nil => simp [charListLt] at h1
    | cons y ys =>
      cases c with
      | nil => simp [charListLt] at h2
      | cons z zs => simp [charListLt]
  | cons x xs ih =>
    intro b c h1 h2
    cases b with
    | nil => simp [charListLt] at h1
    | cons y ys =>
      cases c with
      | nil => simp [charListLt] at h2
      | cons z zs =>
        simp only [charListLt, Bool.or_eq_true, Bool.and_eq_true,
          decide_eq_true_eq, beq_iff_eq] at h1 h2 ⊢
        rcases h1 with h1 | ⟨rfl, h1⟩
        · rcases h2 with h2 | ⟨rfl, h2⟩
          · exact Or.inl (lt_trans h1 h2)
          · exact Or.inl h1
        · rcases h2 with h2 | ⟨rfl, h2⟩
          · exact Or.inl h2
          · exact Or.inr ⟨rfl, ih h1 h2⟩

/-- Trichotomy of the character list order. -/
theorem charListLt_total3 : ∀ (a b : List Char),
    charListLt a b = true ∨ a = b ∨ charListLt b a = true := by
  intro a
  induction a with
  | nil =>
    intro b
    cases b with
    | nil => exact Or.inr (Or.inl rfl)
    | cons y ys => exact Or.inl (by simp [charListLt])
  | cons x xs ih =>
    intro b
    cases b with
    | nil => exact Or.inr (Or.inr (by simp [charListLt]))
    | cons y ys =>
      rcases lt_trichotomy x y with h | rfl | h
      · exact Or.inl (by simp [charListLt, h])
      · rcases ih ys with h2 | rfl | h2
        · exact Or.inl (by simp [charListLt, h2])
        · exact Or.inr (Or.inl rfl)
        · exact Or.inr (Or.inr (by simp [charListLt, h2]))
      · exact Or.inr (Or.inr (by simp [charListLt, h]))

/-- Transitivity of the strict string order. -/
theorem strLt_trans {a b c : String} (h1 : strLt a b = true)
    (h2 : strLt b c = true) : strLt a c = true :=
  charListLt_trans h1 h2

/-- Trichotomy of the strict string order. -/
theorem str_total3 (a b : String) :
    strLt a b = true ∨ a = b ∨ strLt b a = true := by
  rcases charListLt_total3 a.data b.data with h | h | h
  · exact Or.inl h
  · refine Or.inr (Or.inl ?_)
    cases a
    cases b
    exact congrArg String.mk h
  · exact Or.inr (Or.inr h)

/-- Transitivity of the reflexive string order. -/
theorem strLe_trans {a b c : String} (h1 : strLe a b = true)
    (h2 : strLe b c = true) : strLe a c = true := by
  simp only [strLe, Bool.or_eq_true, beq_iff_eq] at h1 h2 ⊢
  rcases h1 with h1 | rfl
  · rcases h2 with h2 | rfl
    · exact Or.inl (strLt_trans h1 h2)
    · exact Or.inl h1
  · exact h2

/-- Totality of the reflexive string order. -/
theorem strLe_total (a b : String) : (strLe a b || strLe b a) = true := by
  simp only [strLe, Bool.or_eq_true, beq_iff_eq]
  rcases str_total3 a b with h | rfl | h
  · exact Or.inl (Or.inl h)
  · exact Or.inl (Or.inr rfl)
  · exact Or.inr (Or.inl h)

/-- Transitivity of the name-then-key comparator. -/
theorem strPairLe_trans {n1 k1 n2 k2 n3 k3 : String}
    (h1 : strPairLe n1 k1 n2 k2 = true) (h2 : strPairLe n2 k2 n3 k3 = true) :
    strPairLe n1 k1 n3 k3 = true := by
  simp only [strPairLe, Bool.or_eq_true, Bool.and_eq_true, beq_iff_eq]
    at h1 h2 ⊢
  rcases h1 with h1 | ⟨rfl, h1⟩
  · rcases h2 with h2 | ⟨rfl, h2⟩
    · exact Or.inl (strLt_trans h1 h2)
    · exact Or.inl h1
  · rcases h2 with h2 | ⟨rfl, h2⟩
    · exact Or.inl h2
    · exact Or.inr ⟨rfl, strLe_trans h1 h2⟩

/-- Totality of the name-then-key comparator. -/
theorem strPairLe_total (n1 k1 n2 k2 : String) :
    (strPairLe n1 k1 n2 k2 || strPairLe n2 k2 n1 k1) = true := by
  simp only [strPairLe, Bool.or_eq_true, Bool.and_eq_true, beq_iff_eq]
  rcases str_total3 n1 n2 with h | rfl | h
  · exact Or.inl (Or.inl h)
  · have hk := strLe_total k1 k2
    rw [Bool.or_eq_true] at hk
    rcases hk with hk | hk
    · exact Or.inl (Or.inr ⟨rfl, hk⟩)
    · exact Or.inr (Or.inr ⟨rfl, hk⟩)
  · exact Or.inr (Or.inl h)

/-- Transitivity for the entity name-then-key comparator. -/
theorem nameKeyLe_trans (a b c : EntityDoc) (h1 : nameKeyLe a b = true)
    (h2 : nameKeyLe b c = true) : nameKeyLe a c = true :=
  strPairLe_trans h1 h2

/-- Totality for the entity name-then-key comparator. -/
theorem nameKeyLe_total (a b : EntityDoc) :
    (nameKeyLe a b || nameKeyLe b a) = true :=
  strPairLe_total a.name a.key b.name b.key

/-- Transitivity for the page name-then-key comparator. -/
theorem pageNameKeyLe_trans (a b c : PageDoc) (h1 : pageNameKeyLe a b = true)
    (h2 : pageNameKeyLe b c = true) : pageNameKeyLe a c = true :=
  strPairLe_trans h1 h2

/-- Totality for the page name-then-key comparator. -/
theorem pageNameKeyLe_total (a b : PageDoc) :
    (pageNameKeyLe a b || pageNameKeyLe b a) = true :=
  strPairLe_total a.name a.key b.name b.key

/-- Transitivity for the name-only comparator. -/
theorem nameLe_trans (a b c : EntityDoc) (h1 : nameLe a b = true)
    (h2 : nameLe b c = true) : nameLe a c = true :=
  strLe_trans h1 h2

/-- Totality for the name-only comparator. -/
theorem nameLe_total (a b : EntityDoc) : (nameLe a b || nameLe b a) = true :=
  strLe_total a.name b.name

/-! Sorting lemmas. -/

/-- Membership after an ordered insertion. -/
theorem mem_orderedInsert {le : α → α → Bool} {a x : α} : ∀ {l : List α},
    x ∈ orderedInsert le a l ↔ x = a ∨ x ∈ l := by
  intro l
  induction l with
  | nil => simp [orderedInsert]
  | cons b t ih =>
    simp only [orderedInsert]
    split
    · simp [List.mem_cons]
    · rw [List.mem_cons, List.mem_cons, ih]
      tauto

/-- Ordered insertion preserves sortedness for a transitive total
comparator. -/
theorem pairwise_orderedInsert {le : α → α → Bool}
    (htrans : ∀ a b c, le a b = true → le b c = true → le a c = true)
    (htotal : ∀ a b, (le a b || le b a) = true)
    (a : α) : ∀ {l : List α}, l.Pairwise (fun x y => le x y = true) →
    (orderedInsert le a l).Pairwise (fun x y => le x y = true) := by
  intro l
  induction l with
  | nil =>
    intro _
    simp [orderedInsert]
  | cons b t ih =>
    intro h
    rw [List.pairwise_cons] at h
    obtain ⟨hb, ht⟩ := h
    simp only [orderedInsert]
    split
    · rename_i hab
      rw [List.pairwise_cons]
      refine ⟨?_, by rw [List.pairwise_cons]; exact ⟨hb, ht⟩⟩
      intro y hy
      rcases List.mem_cons.1 hy with rfl | hy
      · exact hab
      · exact htrans a b y hab (hb y hy)
    · rename_i hab
      have hba : le b a = true := by
        have h2 := htotal a b
        rw [Bool.or_eq_true] at h2
        rcases h2 with h2 | h2
        · exact absurd h2 hab
        · exact h2
      rw [List.pairwise_cons]
      refine ⟨?_, ih ht⟩
      intro y hy
      rcases mem_orderedInsert.1 hy with rfl | hy
      · exact hba
      · exact hb y hy

/-- The insertion sort output is sorted for a transitive total comparator. -/
theorem pairwise_sortBy {le : α → α → Bool}
    (htrans : ∀ a b c, le a b = true → le b c = true → le a c = true)
    (htotal : ∀ a b, (le a b || le b a) = true) :
    ∀ (l : List α), (sortBy le l).Pairwise (fun x y => le x y = true) := by
  intro l
  induction l with
  | nil => simp [sortBy]
  | cons a t ih => exact pairwise_orderedInsert htrans htotal a ih

/-- A pairwise-ordered list passes the adjacent sortedness check. -/
theorem pairwise_isSortedBy {le : α → α → Bool} :
    ∀ {l : List α}, l.Pairwise (fun x y => le x y = true) →
    isSortedBy le l = true := by
  intro l
  induction l with
  | nil => intro _; rfl
  | cons a t ih =>
    intro h
    rw [List.pairwise_cons] at h
    obtain ⟨ha, ht⟩ := h
    cases t with
    | nil => rfl
    | cons b t2 =>
      simp only [isSortedBy, Bool.and_eq_true]
      exact ⟨ha b (List.mem_cons_self b t2), ih ht⟩

/-- Hoisting returns a sublist in the remainder component. -/
theorem hoistFirst_sublist (p : EntityDoc → Bool) :
    ∀ (l : List EntityDoc), (hoistFirst p l).2.Sublist l := by
  intro l
  induction l with
  | nil => simp [hoistFirst]
  | cons d rest ih =>
    simp only [hoistFirst]
    split
    · exact List.Sublist.cons d (List.Sublist.refl rest)
    · exact List.Sublist.cons₂ d ih

/-! Session store lemmas. -/

/-- The lastSeenAt touch changes no token hash. -/
theorem touchFirstById_map_hash (sid now : Nat) : ∀ (l : List Session),
    (touchFirstById l sid now).map (fun s => s.sessionTokenHash) =
      l.map (fun s => s.sessionTokenHash) := by
  intro l
  induction l with
  | nil => rfl
  | cons s rest ih =>
    simp only [touchFirstById]
    split
    · simp [List.map_cons]
    · simp only [List.map_cons, ih]

/-- Every session after a touch has the hash and revocation state of a
session before it. -/
theorem mem_touchFirstById {sid now : Nat} : ∀ {l : List Session} {x : Session},
    x ∈ touchFirstById l sid now →
    ∃ s ∈ l, x.sessionTokenHash = s.sessionTokenHash ∧
      x.revokedAt = s.revokedAt := by
  intro l
  induction l with
  | nil => intro x hx; simp [touchFirstById] at hx
  | cons s rest ih =>
    intro x hx
    simp only [touchFirstById] at hx
    split at hx
    · rcases List.mem_cons.1 hx with rfl | hx
      · exact ⟨s, List.mem_cons_self s rest, rfl, rfl⟩
      · exact ⟨x, List.mem_cons_of_mem s hx, rfl, rfl⟩
    · rcases List.mem_cons.1 hx with rfl | hx
      · exact ⟨x, List.mem_cons_self x rest, rfl, rfl⟩
      · obtain ⟨s2, hs2, h1, h2⟩ := ih hx
        exact ⟨s2, List.mem_cons_of_mem s hs2, h1, h2⟩

/-- Revocation changes no token hash. -/
theorem revokeFirstByHash_map_hash (h2 : TokenHash) (now : Nat) :
    ∀ (l : List Session),
    (revokeFirstByHash l h2 now).map (fun s => s.sessionTokenHash) =
      l.map (fun s => s.sessionTokenHash) := by
  intro l
  induction l with
  | nil => rfl
  | cons s rest ih =>
    simp only [revokeFirstByHash]
    split
    · simp [List.map_cons]
    · simp only [List.map_cons, ih]

/-- Every session after a revocation update has the hash of a prior session
and either its prior revocation state or the fresh revocation stamp. -/
theorem mem_revokeFirstByHash {h2 : TokenHash} {now : Nat} :
    ∀ {l : List Session} {x : Session},
    x ∈ revokeFirstByHash l h2 now →
    ∃ s ∈ l, x.sessionTokenHash = s.sessionTokenHash ∧
      (x.revokedAt = s.revokedAt ∨ x.revokedAt = some now) := by
  intro l
  induction l with
  | nil => intro x hx; simp [revokeFirstByHash] at hx
  | cons s rest ih =>
    intro x hx
    simp only [revokeFirstByHash] at hx
    split at hx
    · rcases List.mem_cons.1 hx with rfl | hx
      · exact ⟨s, List.mem_cons_self s rest, rfl, Or.inr rfl⟩
      · exact ⟨x, List.mem_cons_of_mem s hx, rfl, Or.inl rfl⟩
    · rcases List.mem_cons.1 hx with rfl | hx
      · exact ⟨x, List.mem_cons_self x rest, rfl, Or.inl rfl⟩
      · obtain ⟨s2, hs2, h1, h2⟩ := ih hx
        exact ⟨s2, List.mem_cons_of_mem s hs2, h1, h2⟩

/-- A revoked digest stays revoked across a lastSeenAt touch. -/
theorem hashRevoked_touch {H : TokenHash} {l : List Session} (sid now : Nat)
    (h : HashRevoked H l) : HashRevoked H (touchFirstById l sid now) := by
  obtain ⟨⟨s0, hs0, hs0h⟩, hall⟩ := h
  constructor
  · have hm : H ∈ (touchFirstById l sid now).map
        (fun s => s.sessionTokenHash) := by
      rw [touchFirstById_map_hash]
      exact List.mem_map.2 ⟨s0, hs0, hs0h⟩
    obtain ⟨x, hx, hxh⟩ := List.mem_map.1 hm
    exact ⟨x, hx, hxh⟩
  · intro x hx hxh
    obtain ⟨s, hs, h1, h2⟩ := mem_touchFirstById hx
    rw [h2]
    exact hall s hs (h1.symm.trans hxh)

/-- A revoked digest stays revoked across any revocation update. -/
theorem hashRevoked_revoke {H : TokenHash} {l : List Session}
    (h2 : TokenHash) (now : Nat) (h : HashRevoked H l) :
    HashRevoked H (revokeFirstByHash l h2 now) := by
  obtain ⟨⟨s0, hs0, hs0h⟩, hall⟩ := h
  constructor
  · have hm : H ∈ (revokeFirstByHash l h2 now).map
        (fun s => s.sessionTokenHash) := by
      rw [revokeFirstByHash_map_hash]
      exact List.mem_map.2 ⟨s0, hs0, hs0h⟩
    obtain ⟨x, hx, hxh⟩ := List.mem_map.1 hm
    exact ⟨x, hx, hxh⟩
  · intro x hx hxh
    obtain ⟨s, hs, hh, hr⟩ := mem_revokeFirstByHash hx
    rcases hr with hr | hr
    · rw [hr]
      exact hall s hs (hh.symm.trans hxh)
    · rw [hr]
      simp

/-- A revoked digest stays revoked when a session with a different digest
is appended. -/
theorem hashRevoked_append {H : TokenHash} {l : List Session} {snew : Session}
    (h : HashRevoked H l) (hne : snew.sessionTokenHash ≠ H) :
    HashRevoked H (l ++ [snew]) := by
  obtain ⟨⟨s0, hs0, hs0h⟩, hall⟩ := h
  refine ⟨⟨s0, List.mem_append.2 (Or.inl hs0), hs0h⟩, ?_⟩
  intro s hs hsh
  rcases List.mem_append.1 hs with hs | hs
  · exact hall s hs hsh
  · rcases List.mem_singleton.1 hs with rfl
    exact absurd hsh hne

/-- Revoking the first session with a digest, when the session digests are
unique and the digest is present, leaves every session with that digest
revoked. -/
theorem revokeFirstByHash_establishes {H : TokenHash} {now : Nat} :
    ∀ {l : List Session},
    (l.map (fun s => s.sessionTokenHash)).Nodup →
    (∃ s ∈ l, s.sessionTokenHash = H) →
    HashRevoked H (revokeFirstByHash l H now) := by
  intro l
  induction l with
  | nil => intro _ hex; simp at hex
  | cons s rest ih =>
    intro hnd hex
    rw [List.map_cons, List.nodup_cons] at hnd
    obtain ⟨hnotin, hndr⟩ := hnd
    simp only [revokeFirstByHash]
    split
    · rename_i hbeq
      have hsh : s.sessionTokenHash = H := beq_iff_eq.1 hbeq
      constructor
      · exact ⟨{ s with revokedAt := some now },
          List.mem_cons_self _ rest, hsh⟩
      · intro x hx hxh
        rcases List.mem_cons.1 hx with rfl | hx
        · simp
        · exfalso
          apply hnotin
          rw [hsh, ← hxh]
          exact List.mem_map.2 ⟨x, hx, rfl⟩
    · rename_i hbeq
      have hsne : s.sessionTokenHash ≠ H := by
        intro hc
        exact hbeq (by rw [hc]; exact beq_self_eq_true H)
      have hex2 : ∃ x ∈ rest, x.sessionTokenHash = H := by
        rcases hex with ⟨x, hx, hxh⟩
        rcases List.mem_cons.1 hx with rfl | hx
        · exact absurd hxh hsne
        · exact ⟨x, hx, hxh⟩
      obtain ⟨⟨x0, hx0, hx0h⟩, hall⟩ := ih hndr hex2
      constructor
      · exact ⟨x0, List.mem_cons_of_mem s hx0, hx0h⟩
      · intro x hx hxh
        rcases List.mem_cons.1 hx with rfl | hx
        · exact absurd hxh hsne
        · exact hall x hx hxh

/-- Characterization of a middleware pass: the cookie was present, the
lookup found an active session supplying the attached ids, and the store
was at most touched. -/
theorem requireAdminSession_next {pepper : String} {st : DBState}
    {cookie : Option String} {now : Nat} {touchOk : Bool}
    {a sid : Nat} {st1 : DBState}
    (h : requireAdminSession pepper st cookie now touchOk =
      (.next a sid, st1)) :
    falsyOptStr cookie = false ∧
    ∃ s0, st.sessions.find?
        (sessionQuery (sessionTokenToHash pepper (cookie.getD ""))) =
          some s0 ∧
      a = s0.accountId ∧ sid = s0.sessionId ∧
      (st1.sessions = st.sessions ∨
        st1.sessions = touchFirstById st.sessions s0.sessionId now) := by
  unfold requireAdminSession at h
  split at h
  · exact absurd h (by simp)
  · rename_i hfal
    split at h
    · exact absurd h (by simp)
    · rename_i s0 hfind
      rw [Prod.mk.injEq] at h
      obtain ⟨h1, h2⟩ := h
      have ha : a = s0.accountId ∧ sid = s0.sessionId := by
        cases h1
        exact ⟨rfl, rfl⟩
      refine ⟨by simpa using hfal, s0, hfind, ha.1, ha.2, ?_⟩
      cases touchOk with
      | false =>
        rw [if_neg (by simp)] at h2
        rw [← h2]
        exact Or.inl rfl
      | true =>
        rw [if_pos rfl] at h2
        rw [← h2]
        exact Or.inr rfl

/-- Characterization of a successful login: the exact response and the
exact store update. -/
theorem postLogin_success (pepper : String) (st : DBState)
    (username password label : Option String) (newToken : String) (now : Nat)
    (ip userAgent : Option String) (a : Account)
    (hu : falsyOptStr username = false) (hp : falsyOptStr password = false)
    (ha : st.accounts.find? (loginQuery (username.getD "")) = some a)
    (hv : argon2Verify a.passwordHash (password.getD "") = true)
    (hfresh : ∀ s ∈ st.sessions,
      s.sessionTokenHash ≠ sessionTokenToHash pepper newToken) :
    postLogin pepper st username password label newToken now ip userAgent =
      (.ok 200 ⟨true, newToken⟩,
        { st with
          sessions := st.sessions ++
            [mkNewSession pepper a.accountId st.nextSessionId newToken now
              label ip userAgent]
          nextSessionId := st.nextSessionId + 1 }) := by
  have hany : st.sessions.any (fun s =>
      s.sessionTokenHash == sessionTokenToHash pepper newToken) = false := by
    rw [List.any_eq_false]
    intro s hs
    simp only [beq_iff_eq]
    exact hfresh s hs
  simp [postLogin, hu, hp, ha, hv, hany]

/-- The halting branches of the middleware leave the store unchanged. -/
theorem requireAdminSession_halt_state {pepper : String} {st : DBState}
    {cookie : Option String} {now : Nat} {touchOk : Bool}
    {status : Nat} {body : ErrorBody} {st1 : DBState}
    (h : requireAdminSession pepper st cookie now touchOk =
      (.halt status body, st1)) : st1 = st := by
  unfold requireAdminSession at h
  split at h
  · rw [Prod.mk.injEq] at h
    exact h.2.symm
  · split at h
    · rw [Prod.mk.injEq] at h
      exact h.2.symm
    · exact absurd h (by simp)

/-- A forever-revoked token digest stays forever revoked across every
server operation on the session store. -/
theorem revokedForever_step (pepper raw : String) (st : DBState)
    (op : AdminOp) (h : RevokedForever pepper raw st) :
    RevokedForever pepper raw (stepOp pepper st op) := by
  cases op with
  | login u p l tok now ip ua =>
    simp only [stepOp, postLogin]
    split
    · exact h
    · split
      · exact h
      · rename_i account hacc
        split
        · exact h
        · split
          · exact h
          · rename_i hany
            refine hashRevoked_append h ?_
            intro hc
            apply hany
            rw [List.any_eq_true]
            obtain ⟨⟨s0, hs0, hs0h⟩, -⟩ := h
            refine ⟨s0, hs0, ?_⟩
            have hc2 : sessionTokenToHash pepper tok =
                sessionTokenToHash pepper raw := hc
            rw [beq_iff_eq, hs0h, ← hc2]
  | auth cookie now touchOk =>
    simp only [stepOp, requireAdminSession]
    split
    · exact h
    · split
      · exact h
      · split
        · exact hashRevoked_touch _ _ h
        · exact h
  | logout cookie now touchNow touchOk =>
    simp only [stepOp, postLogout]
    split
    · rename_i status body st1 heq
      rw [requireAdminSession_halt_state heq]
      exact h
    · rename_i a sid st1 heq
      obtain ⟨-, s0, -, -, -, hsess⟩ := requireAdminSession_next heq
      have h1 : HashRevoked (sessionTokenToHash pepper raw) st1.sessions := by
        rcases hsess with hs | hs
        · rw [hs]
          exact h
        · rw [hs]
          exact hashRevoked_touch _ _ h
      exact hashRevoked_revoke _ _ h1
  | me cookie storeOk => exact h

/-- A forever-revoked token digest stays forever revoked across any
sequence of server operations. -/
theorem revokedForever_runOps (pepper raw : String) :
    ∀ (ops : List AdminOp) (st : DBState), RevokedForever pepper raw st →
    RevokedForever pepper raw (runOps pepper st ops) := by
  intro ops
  induction ops with
  | nil => intro st h; exact h
  | cons op rest ih =>
    intro st h
    exact ih _ (revokedForever_step pepper raw st op h)

/-- Presenting a forever-revoked token to the middleware fails with the 401
invalid-or-revoked response. -/
theorem auth_fails_of_revokedForever {pepper raw : String} {st : DBState}
    (now : Nat) (touchOk : Bool) (hraw : raw ≠ "")
    (h : RevokedForever pepper raw st) :
    (requireAdminSession pepper st (some raw) now touchOk).1 =
      .halt 401 ⟨"unauthorized", "Invalid or revoked session"⟩ := by
  have hfal : falsyOptStr (some raw) = false := by
    simp only [falsyOptStr, beq_eq_false_iff_ne, ne_eq]
    exact hraw
  have hfind : st.sessions.find?
      (sessionQuery (sessionTokenToHash pepper raw)) = none := by
    rw [List.find?_eq_none]
    intro s hs hq
    simp only [sessionQuery, Bool.and_eq_true, beq_iff_eq] at hq
    exact h.2 s hs hq.1 hq.2
  simp [requireAdminSession, hfal, hfind]

/-- Claim C3: after Logout succeeds for a raw token, every subsequent
Authenticate presenting that token fails with the 401 unauthorized response,
whatever sequence of server operations runs in between: the revocation is
one-way and terminal, and no operation ever clears revokedAt. -/
theorem logout_revocation_permanent (pepper raw : String) (st st2 : DBState)
    (now touchNow : Nat) (touchOk : Bool)
    (hnodup : (st.sessions.map (fun s => s.sessionTokenHash)).Nodup)
    (hlogout : postLogout pepper st (some raw) now touchNow touchOk =
      (.ok 200 ⟨true⟩, st2)) :
    ∀ (ops : List AdminOp) (now2 : Nat) (touch2 : Bool),
      (requireAdminSession pepper (runOps pepper st2 ops) (some raw) now2
        touch2).1 =
        .halt 401 ⟨"unauthorized", "Invalid or revoked session"⟩ := by
  intro ops now2 touch2
  unfold postLogout at hlogout
  split at hlogout
  · exact absurd hlogout (by simp)
  · rename_i a sid st1 heq
    rw [Prod.mk.injEq] at hlogout
    obtain ⟨-, hst2⟩ := hlogout
    obtain ⟨hfal, s0, hfind, -, -, hsess⟩ := requireAdminSession_next heq
    have hraw : raw ≠ "" := by
      intro hc
      rw [hc] at hfal
      simp [falsyOptStr] at hfal
    have hs0mem : s0 ∈ st.sessions := List.mem_of_find?_eq_some hfind
    have hs0q := List.find?_some hfind
    simp only [sessionQuery, Bool.and_eq_true, beq_iff_eq] at hs0q
    have hnodup1 : (st1.sessions.map (fun s => s.sessionTokenHash)).Nodup := by
      rcases hsess with hs | hs
      · rw [hs]
        exact hnodup
      · rw [hs, touchFirstById_map_hash]
        exact hnodup
    have hex1 : ∃ s ∈ st1.sessions,
        s.sessionTokenHash = sessionTokenToHash pepper raw := by
      rcases hsess with hs | hs
      · rw [hs]
        exact ⟨s0, hs0mem, hs0q.1⟩
      · rw [hs]
        have hm : sessionTokenToHash pepper raw ∈
            (touchFirstById st.sessions s0.sessionId touchNow).map
              (fun s => s.sessionTokenHash) := by
          rw [touchFirstById_map_hash]
          exact List.mem_map.2 ⟨s0, hs0mem, hs0q.1⟩
        obtain ⟨x, hx, hxh⟩ := List.mem_map.1 hm
        exact ⟨x, hx, hxh⟩
    have hrf : RevokedForever pepper raw st2 := by
      rw [← hst2]
      exact revokeFirstByHash_establishes hnodup1 hex1
    exact auth_fails_of_revokedForever now2 touch2 hraw
      (revokedForever_runOps pepper raw ops st2 hrf)

/-- Witness for C3 at a concrete store: the revoked token never
authenticates again. -/
theorem logout_revocation_permanent_witness :
    (requireAdminSession "pep" (runOps "pep" exDBRevoked []) (some "tok") 9
      true).1 = .halt 401 ⟨"unauthorized", "Invalid or revoked session"⟩ :=
  logout_revocation_permanent "pep" "tok" exDBActive exDBRevoked 7 6 false
    (by decide) (by decide) [] 9 true

/-- Claim C7: the middleware outcome is independent of whether the
best-effort lastSeenAt update succeeds, so a failed touch never changes the
response status or body and the request reaches the downstream handler with
the same resolved ids. -/
theorem touch_failure_invisible (pepper : String) (st : DBState)
    (cookie : Option String) (now : Nat) :
    (requireAdminSession pepper st cookie now false).1 =
      (requireAdminSession pepper st cookie now true).1 := by
  unfold requireAdminSession
  split
  · rfl
  · split
    · rfl
    · rfl

/-- Claim C4: the token digest is pure and deterministic for a fixed
secret, and distinct secrets give distinct digests for the same token. -/
theorem digest_deterministic_and_keyed :
    (∀ (pepper token : String),
      sessionTokenToHash pepper token = sessionTokenToHash pepper token) ∧
    ∀ (p1 p2 token : String), p1 ≠ p2 →
      sessionTokenToHash p1 token ≠ sessionTokenToHash p2 token := by
  refine ⟨fun _ _ => rfl, ?_⟩
  intro p1 p2 token hne hc
  exact hne (congrArg Prod.fst hc)

/-- Witness for C4 at concrete secrets. -/
theorem digest_deterministic_and_keyed_witness :
    sessionTokenToHash "alpha" "tok" ≠ sessionTokenToHash "beta" "tok" :=
  digest_deterministic_and_keyed.2 "alpha" "beta" "tok" (by decide)

/-- Claim C2: every login attempt that fails credential verification,
whether the username matches no account, the account is disabled (and hence
not matched by the disabled-false lookup), or the password is wrong,
produces the identical 401 response with the same error and message fields
and leaves the store unchanged, so the causes are indistinguishable. -/
theorem login_enumeration_safe (pepper : String) (st : DBState)
    (username password label : Option String) (newToken : String) (now : Nat)
    (ip userAgent : Option String)
    (hu : falsyOptStr username = false) (hp : falsyOptStr password = false)
    (hfail : ∀ a, st.accounts.find? (loginQuery (username.getD "")) = some a →
      argon2Verify a.passwordHash (password.getD "") = false) :
    postLogin pepper st username password label newToken now ip userAgent =
      (.err 401 ⟨"unauthorized", "Invalid credentials"⟩, st) := by
  cases hacc : st.accounts.find? (loginQuery (username.getD "")) with
  | none => simp [postLogin, hu, hp, hacc]
  | some a => simp [postLogin, hu, hp, hacc, hfail a hacc]

/-- Witness for C2: an attempt against an absent account. -/
theorem login_enumeration_safe_witness :
    postLogin "pep" exEmptyDB (some "ghost") (some "pw") none "tok" 0 none
      none = (.err 401 ⟨"unauthorized", "Invalid credentials"⟩, exEmptyDB) :=
  login_enumeration_safe "pep" exEmptyDB (some "ghost") (some "pw") none
    "tok" 0 none none (by decide) (by decide) (fun a h => nomatch h)

/-- Claim C5: session introspection never answers with an error response:
every input gets a 200 with an authenticated flag, and a missing cookie, a
store failure, or a cookie token matching no active session all answer
false. -/
theorem introspect_fail_closed (pepper : String) (st : DBState)
    (cookie : Option String) (storeOk : Bool) :
    (∃ b, getMe pepper st cookie storeOk = .ok 200 ⟨b⟩) ∧
    (falsyOptStr cookie = true →
      getMe pepper st cookie storeOk = .ok 200 ⟨false⟩) ∧
    (storeOk = false → getMe pepper st cookie storeOk = .ok 200 ⟨false⟩) ∧
    ((∀ s ∈ st.sessions,
        sessionQuery (sessionTokenToHash pepper (cookie.getD "")) s =
          false) →
      getMe pepper st cookie storeOk = .ok 200 ⟨false⟩) := by
  refine ⟨?_, ?_, ?_, ?_⟩
  · unfold getMe
    split
    · exact ⟨false, rfl⟩
    · split
      · exact ⟨false, rfl⟩
      · exact ⟨_, rfl⟩
  · intro hf
    simp [getMe, hf]
  · intro hs
    subst hs
    unfold getMe
    split
    · rfl
    · rfl
  · intro hall
    unfold getMe
    split
    · rfl
    · split
      · rfl
      · have hany : st.sessions.any
            (sessionQuery (sessionTokenToHash pepper (cookie.getD ""))) =
              false := by
          rw [List.any_eq_false]
          intro s hs
          rw [hall s hs]
          simp
        rw [hany]

/-- Witness for C5: a revoked session token answers unauthenticated with a
200 status. -/
theorem introspect_fail_closed_witness :
    getMe "pep" exDBRevoked (some "tok") true = .ok 200 ⟨false⟩ :=
  (introspect_fail_closed "pep" exDBRevoked (some "tok") true).2.2.2
    (by decide)

/-- Session lookup skips a block of sessions carrying other digests. -/
theorem find?_sessionQuery_append_none {H : TokenHash} {l : List Session}
    (h : ∀ s ∈ l, s.sessionTokenHash ≠ H) (l2 : List Session) :
    (l ++ l2).find? (sessionQuery H) = l2.find? (sessionQuery H) := by
  rw [List.find?_append]
  have h1 : l.find? (sessionQuery H) = none := by
    rw [List.find?_eq_none]
    intro s hs hq
    simp only [sessionQuery, Bool.and_eq_true, beq_iff_eq] at hq
    exact h s hs hq.1
  rw [h1]
  simp

/-- Revocation skips a block of sessions carrying other digests. -/
theorem revokeFirstByHash_append_of_none {H : TokenHash} {now : Nat} :
    ∀ {l1 : List Session}, (∀ s ∈ l1, s.sessionTokenHash ≠ H) →
    ∀ (l2 : List Session),
    revokeFirstByHash (l1 ++ l2) H now = l1 ++ revokeFirstByHash l2 H now := by
  intro l1
  induction l1 with
  | nil => intro _ l2; rfl
  | cons s rest ih =>
    intro hnone l2
    have hs : s.sessionTokenHash ≠ H :=
      hnone s (List.mem_cons_self s rest)
    simp only [List.cons_append, revokeFirstByHash]
    rw [if_neg (by simpa using hs)]
    exact congrArg (List.cons s)
      (ih (fun x hx => hnone x (List.mem_cons_of_mem s hx)) l2)

/-- The middleware outcome when the lookup finds an active session. -/
theorem requireAdminSession_found (pepper : String) (st : DBState)
    (raw : String) (now : Nat) (touchOk : Bool) (s : Session)
    (hraw : raw ≠ "")
    (hfind : st.sessions.find?
      (sessionQuery (sessionTokenToHash pepper raw)) = some s) :
    (requireAdminSession pepper st (some raw) now touchOk).1 =
      .next s.accountId s.sessionId := by
  have hfal : falsyOptStr (some raw) = false := by
    simp only [falsyOptStr, beq_eq_false_iff_ne, ne_eq]
    exact hraw
  simp [requireAdminSession, hfal, hfind]

/-- The middleware outcome when the lookup finds no active session. -/
theorem requireAdminSession_notfound (pepper : String) (st : DBState)
    (raw : String) (now : Nat) (touchOk : Bool)
    (hraw : raw ≠ "")
    (hfind : st.sessions.find?
      (sessionQuery (sessionTokenToHash pepper raw)) = none) :
    (requireAdminSession pepper st (some raw) now touchOk).1 =
      .halt 401 ⟨"unauthorized", "Invalid or revoked session"⟩ := by
  have hfal : falsyOptStr (some raw) = false := by
    simp only [falsyOptStr, beq_eq_false_iff_ne, ne_eq]
    exact hraw
  simp [requireAdminSession, hfal, hfind]

/-- Claim C1: with valid credentials for a non-disabled account and a fresh
random token, login answers ok true with the raw token cookie, appends one
session whose revokedAt is null and whose stored hash is the digest of the
returned token, and presenting that raw token to the middleware resolves to
the account id. -/
theorem login_issues_resolvable_session (pepper : String) (st : DBState)
    (username password label : Option String) (newToken : String)
    (now now2 : Nat) (ip userAgent : Option String) (a : Account)
    (touchOk : Bool)
    (hu : falsyOptStr username = false) (hp : falsyOptStr password = false)
    (ht : newToken ≠ "")
    (ha : st.accounts.find? (loginQuery (username.getD "")) = some a)
    (hv : argon2Verify a.passwordHash (password.getD "") = true)
    (hfresh : ∀ s ∈ st.sessions,
      s.sessionTokenHash ≠ sessionTokenToHash pepper newToken) :
    postLogin pepper st username password label newToken now ip userAgent =
      (.ok 200 ⟨true, newToken⟩,
        { st with
          sessions := st.sessions ++
            [mkNewSession pepper a.accountId st.nextSessionId newToken now
              label ip userAgent]
          nextSessionId := st.nextSessionId + 1 }) ∧
    (mkNewSession pepper a.accountId st.nextSessionId newToken now label ip
      userAgent).revokedAt = none ∧
    (mkNewSession pepper a.accountId st.nextSessionId newToken now label ip
      userAgent).sessionTokenHash = sessionTokenToHash pepper newToken ∧
    (requireAdminSession pepper
      (postLogin pepper st username password label newToken now ip
        userAgent).2 (some newToken) now2 touchOk).1 =
      .next a.accountId st.nextSessionId := by
  have hpost := postLogin_success pepper st username password label newToken
    now ip userAgent a hu hp ha hv hfresh
  refine ⟨hpost, rfl, rfl, ?_⟩
  rw [hpost]
  have hfind : (st.sessions ++
      [mkNewSession pepper a.accountId st.nextSessionId newToken now label ip
        userAgent]).find?
      (sessionQuery (sessionTokenToHash pepper newToken)) =
      some (mkNewSession pepper a.accountId st.nextSessionId newToken now
        label ip userAgent) := by
    rw [find?_sessionQuery_append_none hfresh]
    simp [List.find?, sessionQuery, mkNewSession]
  exact requireAdminSession_found pepper
    { st with
      sessions := st.sessions ++
        [mkNewSession pepper a.accountId st.nextSessionId newToken now label
          ip userAgent]
      nextSessionId := st.nextSessionId + 1 }
    newToken now2 touchOk
    (mkNewSession pepper a.accountId st.nextSessionId newToken now label ip
      userAgent) ht hfind

/-- Witness for C1: a concrete login and authenticate round trip. -/
theorem login_issues_resolvable_session_witness :
    (requireAdminSession "pep"
      (postLogin "pep" exDB (some "admin") (some "correct") none "tok1" 5
        none none).2 (some "tok1") 6 true).1 = .next 1 10 :=
  (login_issues_resolvable_session "pep" exDB (some "admin") (some "correct")
    none "tok1" 5 6 none none exAccount true (by decide) (by decide)
    (by decide) (by decide) (by decide) (by decide)).2.2.2

/-- The full middleware result when the lookup finds an active session and
the lastSeenAt touch does not run: the store is unchanged. -/
theorem requireAdminSession_found_notouch (pepper : String) (st : DBState)
    (raw : String) (now : Nat) (s : Session)
    (hraw : raw ≠ "")
    (hfind : st.sessions.find?
      (sessionQuery (sessionTokenToHash pepper raw)) = some s) :
    requireAdminSession pepper st (some raw) now false =
      (.next s.accountId s.sessionId, st) := by
  have hfal : falsyOptStr (some raw) = false := by
    simp only [falsyOptStr, beq_eq_false_iff_ne, ne_eq]
    exact hraw
  simp [requireAdminSession, hfal, hfind]

/-- Claim C6: a successful login appends exactly one session document and
leaves every prior session unchanged; two consecutive logins for the same
account with distinct fresh tokens produce two active sessions that
authenticate independently, and after logging out the first token the
second still authenticates while the first no longer does. -/
theorem login_frame_concurrent_sessions (pepper : String) (st : DBState)
    (username password label1 label2 : Option String) (t1 t2 : String)
    (now1 now2 nowL touchNow n3 n4 n5 n6 : Nat)
    (ip userAgent : Option String) (a : Account) (tch1 tch2 tch3 tch4 : Bool)
    (hu : falsyOptStr username = false) (hp : falsyOptStr password = false)
    (ht1 : t1 ≠ "") (ht2 : t2 ≠ "") (hne : t1 ≠ t2)
    (ha : st.accounts.find? (loginQuery (username.getD "")) = some a)
    (hv : argon2Verify a.passwordHash (password.getD "") = true)
    (hf1 : ∀ s ∈ st.sessions,
      s.sessionTokenHash ≠ sessionTokenToHash pepper t1)
    (hf2 : ∀ s ∈ st.sessions,
      s.sessionTokenHash ≠ sessionTokenToHash pepper t2) :
    postLogin pepper st username password label1 t1 now1 ip userAgent =
      (.ok 200 ⟨true, t1⟩,
        { st with
          sessions := st.sessions ++
            [mkNewSession pepper a.accountId st.nextSessionId t1 now1 label1
              ip userAgent]
          nextSessionId := st.nextSessionId + 1 }) ∧
    postLogin pepper
        { st with
          sessions := st.sessions ++
            [mkNewSession pepper a.accountId st.nextSessionId t1 now1 label1
              ip userAgent]
          nextSessionId := st.nextSessionId + 1 }
        username password label2 t2 now2 ip userAgent =
      (.ok 200 ⟨true, t2⟩,
        { st with
          sessions := (st.sessions ++
            [mkNewSession pepper a.accountId st.nextSessionId t1 now1 label1
              ip userAgent]) ++
            [mkNewSession pepper a.accountId (st.nextSessionId + 1) t2 now2
              label2 ip userAgent]
          nextSessionId := st.nextSessionId + 1 + 1 }) ∧
    (requireAdminSession pepper
        { st with
          sessions := (st.sessions ++
            [mkNewSession pepper a.accountId st.nextSessionId t1 now1 label1
              ip userAgent]) ++
            [mkNewSession pepper a.accountId (st.nextSessionId + 1) t2 now2
              label2 ip userAgent]
          nextSessionId := st.nextSessionId + 1 + 1 }
        (some t1) n3 tch1).1 = .next a.accountId st.nextSessionId ∧
    (requireAdminSession pepper
        { st with
          sessions := (st.sessions ++
            [mkNewSession pepper a.accountId st.nextSessionId t1 now1 label1
              ip userAgent]) ++
            [mkNewSession pepper a.accountId (st.nextSessionId + 1) t2 now2
              label2 ip userAgent]
          nextSessionId := st.nextSessionId + 1 + 1 }
        (some t2) n4 tch2).1 = .next a.accountId (st.nextSessionId + 1) ∧
    (requireAdminSession pepper
        (postLogout pepper
          { st with
            sessions := (st.sessions ++
              [mkNewSession pepper a.accountId st.nextSessionId t1 now1
                label1 ip userAgent]) ++
              [mkNewSession pepper a.accountId (st.nextSessionId + 1) t2 now2
                label2 ip userAgent]
            nextSessionId := st.nextSessionId + 1 + 1 }
          (some t1) nowL touchNow false).2
        (some t2) n5 tch3).1 = .next a.accountId (st.nextSessionId + 1) ∧
    (requireAdminSession pepper
        (postLogout pepper
          { st with
            sessions := (st.sessions ++
              [mkNewSession pepper a.accountId st.nextSessionId t1 now1
                label1 ip userAgent]) ++
              [mkNewSession pepper a.accountId (st.nextSessionId + 1) t2 now2
                label2 ip userAgent]
            nextSessionId := st.nextSessionId + 1 + 1 }
          (some t1) nowL touchNow false).2
        (some t1) n6 tch4).1 =
      .halt 401 ⟨"unauthorized", "Invalid or revoked session"⟩ := by
  have hinj : sessionTokenToHash pepper t1 ≠ sessionTokenToHash pepper t2 := by
    intro hc
    exact hne (congrArg Prod.snd hc)
  have hbne : (sessionTokenToHash pepper t1 ==
      sessionTokenToHash pepper t2) = false := beq_eq_false_iff_ne.2 hinj
  have hbne2 : (sessionTokenToHash pepper t2 ==
      sessionTokenToHash pepper t1) = false :=
    beq_eq_false_iff_ne.2 (Ne.symm hinj)
  have h1 := postLogin_success pepper st username password label1 t1 now1 ip
    userAgent a hu hp ha hv hf1
  have hf2x : ∀ s ∈ st.sessions ++
      [mkNewSession pepper a.accountId st.nextSessionId t1 now1 label1 ip
        userAgent],
      s.sessionTokenHash ≠ sessionTokenToHash pepper t2 := by
    intro s hs
    rcases List.mem_append.1 hs with hs | hs
    · exact hf2 s hs
    · rcases List.mem_singleton.1 hs with rfl
      exact hinj
  have h2 := postLogin_success pepper
    { st with
      sessions := st.sessions ++
        [mkNewSession pepper a.accountId st.nextSessionId t1 now1 label1 ip
          userAgent]
      nextSessionId := st.nextSessionId + 1 }
    username password label2 t2 now2 ip userAgent a hu hp ha hv hf2x
  have hfind1 : ((st.sessions ++
      [mkNewSession pepper a.accountId st.nextSessionId t1 now1 label1 ip
        userAgent]) ++
      [mkNewSession pepper a.accountId (st.nextSessionId + 1) t2 now2 label2
        ip userAgent]).find?
      (sessionQuery (sessionTokenToHash pepper t1)) =
      some (mkNewSession pepper a.accountId st.nextSessionId t1 now1 label1
        ip userAgent) := by
    rw [List.append_assoc, find?_sessionQuery_append_none hf1]
    simp [List.find?, sessionQuery, mkNewSession]
  have hfind2 : ((st.sessions ++
      [mkNewSession pepper a.accountId st.nextSessionId t1 now1 label1 ip
        userAgent]) ++
      [mkNewSession pepper a.accountId (st.nextSessionId + 1) t2 now2 label2
        ip userAgent]).find?
      (sessionQuery (sessionTokenToHash pepper t2)) =
      some (mkNewSession pepper a.accountId (st.nextSessionId + 1) t2 now2
        label2 ip userAgent) := by
    rw [List.append_assoc, find?_sessionQuery_append_none hf2]
    simp [List.find?, sessionQuery, mkNewSession, hbne]
  have hmw := requireAdminSession_found_notouch pepper
    { st with
      sessions := (st.sessions ++
        [mkNewSession pepper a.accountId st.nextSessionId t1 now1 label1 ip
          userAgent]) ++
        [mkNewSession pepper a.accountId (st.nextSessionId + 1) t2 now2
          label2 ip userAgent]
      nextSessionId := st.nextSessionId + 1 + 1 }
    t1 touchNow
    (mkNewSession pepper a.accountId st.nextSessionId t1 now1 label1 ip
      userAgent) ht1 hfind1
  have hrevoke : revokeFirstByHash ((st.sessions ++
      [mkNewSession pepper a.accountId st.nextSessionId t1 now1 label1 ip
        userAgent]) ++
      [mkNewSession pepper a.accountId (st.nextSessionId + 1) t2 now2 label2
        ip userAgent]) (sessionTokenToHash pepper t1) nowL =
      st.sessions ++
        ({ mkNewSession pepper a.accountId st.nextSessionId t1 now1 label1 ip
            userAgent with revokedAt := some nowL } ::
          [mkNewSession pepper a.accountId (st.nextSessionId + 1) t2 now2
            label2 ip userAgent]) := by
    rw [List.append_assoc, revokeFirstByHash_append_of_none hf1]
    simp [revokeFirstByHash, mkNewSession]
  have hstate : (postLogout pepper
      { st with
        sessions := (st.sessions ++
          [mkNewSession pepper a.accountId st.nextSessionId t1 now1 label1
            ip userAgent]) ++
          [mkNewSession pepper a.accountId (st.nextSessionId + 1) t2 now2
            label2 ip userAgent]
        nextSessionId := st.nextSessionId + 1 + 1 }
      (some t1) nowL touchNow false).2 =
      { st with
        sessions := st.sessions ++
          ({ mkNewSession pepper a.accountId st.nextSessionId t1 now1 label1
              ip userAgent with revokedAt := some nowL } ::
            [mkNewSession pepper a.accountId (st.nextSessionId + 1) t2 now2
              label2 ip userAgent])
        nextSessionId := st.nextSessionId + 1 + 1 } := by
    unfold postLogout
    rw [hmw]
    show { st with
        sessions := revokeFirstByHash ((st.sessions ++
          [mkNewSession pepper a.accountId st.nextSessionId t1 now1 label1
            ip userAgent]) ++
          [mkNewSession pepper a.accountId (st.nextSessionId + 1) t2 now2
            label2 ip userAgent]) (sessionTokenToHash pepper t1) nowL
        nextSessionId := st.nextSessionId + 1 + 1 } = _
    rw [hrevoke]
  have hfind5 : (st.sessions ++
      ({ mkNewSession pepper a.accountId st.nextSessionId t1 now1 label1 ip
          userAgent with revokedAt := some nowL } ::
        [mkNewSession pepper a.accountId (st.nextSessionId + 1) t2 now2
          label2 ip userAgent])).find?
      (sessionQuery (sessionTokenToHash pepper t2)) =
      some (mkNewSession pepper a.accountId (st.nextSessionId + 1) t2 now2
        label2 ip userAgent) := by
    rw [find?_sessionQuery_append_none hf2]
    simp [List.find?, sessionQuery, mkNewSession, hbne]
  have hfind6 : (st.sessions ++
      ({ mkNewSession pepper a.accountId st.nextSessionId t1 now1 label1 ip
          userAgent with revokedAt := some nowL } ::
        [mkNewSession pepper a.accountId (st.nextSessionId + 1) t2 now2
          label2 ip userAgent])).find?
      (sessionQuery (sessionTokenToHash pepper t1)) = none := by
    rw [find?_sessionQuery_append_none hf1]
    simp [List.find?, sessionQuery, mkNewSession, hbne2]
  refine ⟨h1, h2, ?_, ?_, ?_, ?_⟩
  · exact requireAdminSession_found pepper
      { st with
        sessions := (st.sessions ++
          [mkNewSession pepper a.accountId st.nextSessionId t1 now1 label1
            ip userAgent]) ++
          [mkNewSession pepper a.accountId (st.nextSessionId + 1) t2 now2
            label2 ip userAgent]
        nextSessionId := st.nextSessionId + 1 + 1 }
      t1 n3 tch1
      (mkNewSession pepper a.accountId st.nextSessionId t1 now1 label1 ip
        userAgent) ht1 hfind1
  · exact requireAdminSession_found pepper
      { st with
        sessions := (st.sessions ++
          [mkNewSession pepper a.accountId st.nextSessionId t1 now1 label1
            ip userAgent]) ++
          [mkNewSession pepper a.accountId (st.nextSessionId + 1) t2 now2
            label2 ip userAgent]
        nextSessionId := st.nextSessionId + 1 + 1 }
      t2 n4 tch2
      (mkNewSession pepper a.accountId (st.nextSessionId + 1) t2 now2 label2
        ip userAgent) ht2 hfind2
  · rw [hstate]
    exact requireAdminSession_found pepper
      { st with
        sessions := st.sessions ++
          ({ mkNewSession pepper a.accountId st.nextSessionId t1 now1 label1
              ip userAgent with revokedAt := some nowL } ::
            [mkNewSession pepper a.accountId (st.nextSessionId + 1) t2 now2
              label2 ip userAgent])
        nextSessionId := st.nextSessionId + 1 + 1 }
      t2 n5 tch3
      (mkNewSession pepper a.accountId (st.nextSessionId + 1) t2 now2 label2
        ip userAgent) ht2 hfind5
  · rw [hstate]
    exact requireAdminSession_notfound pepper
      { st with
        sessions := st.sessions ++
          ({ mkNewSession pepper a.accountId st.nextSessionId t1 now1 label1
              ip userAgent with revokedAt := some nowL } ::
            [mkNewSession pepper a.accountId (st.nextSessionId + 1) t2 now2
              label2 ip userAgent])
        nextSessionId := st.nextSessionId + 1 + 1 }
      t1 n6 tch4 ht1 hfind6

/-- Witness for C6: two concrete logins, then logout of the first token
leaves the second session authenticating. -/
theorem login_frame_concurrent_sessions_witness :
    (requireAdminSession "pep"
      (postLogout "pep"
        { exDB with
          sessions := (exDB.sessions ++
            [mkNewSession "pep" 1 10 "tok1" 5 none none none]) ++
            [mkNewSession "pep" 1 11 "tok2" 6 none none none]
          nextSessionId := 12 }
        (some "tok1") 7 7 false).2
      (some "tok2") 8 true).1 = .next 1 11 :=
  (login_frame_concurrent_sessions "pep" exDB (some "admin") (some "correct")
    none none "tok1" "tok2" 5 6 7 7 8 8 8 8 none none exAccount true true
    true true (by decide) (by decide) (by decide) (by decide) (by decide)
    (by decide) (by decide) (by decide) (by decide)).2.2.2.2.1

/-! Content endpoint sorting. -/

/-- Counterexample to claim C8 as stated: the minimal server variant of GET
pages-by-id returns the two equal-named entities of page p in stored order
with keys z before b, a response that is not sorted by name then key. -/
theorem pages_by_id_name_only_counterexample :
    serverJsGetPagesId exContent "p" =
      .ok 200 ⟨exPage, [exEntityZ, exEntityB]⟩ ∧
    isSortedBy nameKeyLe [exEntityZ, exEntityB] = false := by
  decide

/-- Claim C8 (amended): the content endpoints of the full server variants
return their document lists sorted by name then key; the minimal server
variant of GET pages-by-id sorts by name only. -/
theorem content_endpoints_sorted (st : ContentState) :
    (∀ l, getPages st = .ok 200 l → isSortedBy pageNameKeyLe l = true) ∧
    (∀ (b : PagesIdBody) (id : String), getPagesId st id = .ok 200 b →
      isSortedBy nameKeyLe b.entities = true) ∧
    (∀ (b : HoistBody) (code : String), getCountries st code = .ok 200 b →
      isSortedBy nameKeyLe b.entities = true) ∧
    (∀ (b : HoistBody) (key : String), getCities st key = .ok 200 b →
      isSortedBy nameKeyLe b.entities = true) ∧
    (∀ (b : PagesIdBody) (id : String), serverJsGetPagesId st id = .ok 200 b →
      isSortedBy nameLe b.entities = true) := by
  refine ⟨?_, ?_, ?_, ?_, ?_⟩
  · intro l h
    simp only [getPages, ApiResponse.ok.injEq] at h
    obtain ⟨-, rfl⟩ := h
    exact pairwise_isSortedBy
      (pairwise_sortBy pageNameKeyLe_trans pageNameKeyLe_total _)
  · intro b id h
    unfold getPagesId at h
    split at h
    · exact absurd h (by simp)
    · simp only [ApiResponse.ok.injEq] at h
      obtain ⟨-, rfl⟩ := h
      exact pairwise_isSortedBy
        (pairwise_sortBy nameKeyLe_trans nameKeyLe_total _)
  · intro b code h
    unfold getCountries at h
    split at h
    · exact absurd h (by simp)
    · simp only [ApiResponse.ok.injEq] at h
      obtain ⟨-, rfl⟩ := h
      exact pairwise_isSortedBy
        (List.Pairwise.sublist (hoistFirst_sublist _ _)
          (pairwise_sortBy nameKeyLe_trans nameKeyLe_total _))
  · intro b key h
    unfold getCities at h
    split at h
    · exact absurd h (by simp)
    · simp only [ApiResponse.ok.injEq] at h
      obtain ⟨-, rfl⟩ := h
      exact pairwise_isSortedBy
        (List.Pairwise.sublist (hoistFirst_sublist _ _)
          (pairwise_sortBy nameKeyLe_trans nameKeyLe_total _))
  · intro b id h
    unfold serverJsGetPagesId at h
    split at h
    · exact absurd h (by simp)
    · simp only [ApiResponse.ok.injEq] at h
      obtain ⟨-, rfl⟩ := h
      exact pairwise_isSortedBy
        (pairwise_sortBy nameLe_trans nameLe_total _)

/-- Witness for amended C8: the full server orders the tied page entities
by key. -/
theorem content_endpoints_sorted_witness :
    isSortedBy nameKeyLe
      (PagesIdBody.mk exPage [exEntityB, exEntityZ]).entities = true :=
  (content_endpoints_sorted exContent).2.1 ⟨exPage, [exEntityB, exEntityZ]⟩
    "p" (by decide)

/-! JSON object field lemmas for the entity write endpoints. -/

/-- Reading the field just written returns the written value. -/
theorem getField_setField_self : ∀ (l : JObj) (f : String) (v : JVal),
    getField (setField l f v) f = some v := by
  intro l f v
  induction l with
  | nil => simp [setField, getField]
  | cons kv rest ih =>
    obtain ⟨k, w⟩ := kv
    simp only [setField]
    split
    · simp [getField]
    · rename_i hk
      simp only [getField]
      rw [if_neg hk]
      exact ih

/-- Writing one field leaves every other field unchanged. -/
theorem getField_setField_ne {l : JObj} (f g : String) {v : JVal}
    (hne : g ≠ f) : getField (setField l f v) g = getField l g := by
  induction l with
  | nil =>
    have hfg : (f == g) = false := beq_eq_false_iff_ne.2 (Ne.symm hne)
    simp [setField, getField, hfg]
  | cons kv rest ih =>
    obtain ⟨k, w⟩ := kv
    have hfg : (f == g) = false := beq_eq_false_iff_ne.2 (Ne.symm hne)
    simp only [setField]
    split
    · rename_i hk
      have hk2 : k = f := beq_iff_eq.1 hk
      simp [getField, hfg, hk2]
    · simp only [getField, ih]

/-- Every member of an object after a field write is the written pair or a
prior member. -/
theorem mem_setField : ∀ {l : JObj} {f : String} {v : JVal}
    {x : String × JVal}, x ∈ setField l f v → x = (f, v) ∨ x ∈ l := by
  intro l f v x
  induction l with
  | nil =>
    intro h
    simp [setField] at h
    exact Or.inl h
  | cons kv rest ih =>
    obtain ⟨k, w⟩ := kv
    intro h
    simp only [setField] at h
    split at h
    · rcases List.mem_cons.1 h with rfl | h
      · exact Or.inl rfl
      · exact Or.inr (List.mem_cons_of_mem _ h)
    · rcases List.mem_cons.1 h with rfl | h
      · exact Or.inr (List.mem_cons_self _ _)
      · rcases ih h with h | h
        · exact Or.inl h
        · exact Or.inr (List.mem_cons_of_mem _ h)

/-- Every member of an object after a field delete avoids the deleted key
and was a prior member. -/
theorem mem_delField : ∀ {l : JObj} {f : String} {x : String × JVal},
    x ∈ delField l f → x.1 ≠ f ∧ x ∈ l := by
  intro l f x
  induction l with
  | nil =>
    intro h
    simp [delField] at h
  | cons kv rest ih =>
    obtain ⟨k, w⟩ := kv
    intro h
    simp only [delField] at h
    split at h
    · obtain ⟨h1, h2⟩ := ih h
      exact ⟨h1, List.mem_cons_of_mem _ h2⟩
    · rename_i hk
      rcases List.mem_cons.1 h with rfl | h
      · refine ⟨?_, List.mem_cons_self _ _⟩
        simpa using hk
      · obtain ⟨h1, h2⟩ := ih h
        exact ⟨h1, List.mem_cons_of_mem _ h2⟩

/-- A set-style update touching none of a field name leaves that field
unchanged. -/
theorem getField_applySet_ne : ∀ (patch : JObj) (d : JObj) (g : String),
    (∀ x ∈ patch, x.1 ≠ g) →
    getField (applySet d patch) g = getField d g := by
  intro patch
  induction patch with
  | nil => intro d g _; rfl
  | cons kv ps ih =>
    intro d g hno
    obtain ⟨k, w⟩ := kv
    have h1 := ih (setField d k w) g
      (fun x hx => hno x (List.mem_cons_of_mem _ hx))
    have h2 : applySet d ((k, w) :: ps) = applySet (setField d k w) ps := rfl
    rw [h2, h1]
    exact getField_setField_ne k g
      (fun hc => hno (k, w) (List.mem_cons_self _ _) hc.symm)

/-- Characterization of findOneAndUpdate: the returned document is the
update applied to a matching stored document, and the updated collection
holds only prior documents and the returned one. -/
theorem findOneAndUpdateSet_spec : ∀ {l : List JObj} {q : JObj → Bool}
    {setDoc d2 : JObj} {l2 : List JObj},
    findOneAndUpdateSet l q setDoc = some (d2, l2) →
    (∃ d ∈ l, q d = true ∧ d2 = applySet d setDoc) ∧
    ∀ x ∈ l2, x ∈ l ∨ x = d2 := by
  intro l
  induction l with
  | nil =>
    intro q s d2 l2 h
    simp [findOneAndUpdateSet] at h
  | cons d rest ih =>
    intro q s d2 l2 h
    simp only [findOneAndUpdateSet] at h
    split at h
    · rename_i hq
      rw [Option.some.injEq, Prod.mk.injEq] at h
      obtain ⟨rfl, rfl⟩ := h
      refine ⟨⟨d, List.mem_cons_self _ _, hq, rfl⟩, ?_⟩
      intro x hx
      rcases List.mem_cons.1 hx with rfl | hx
      · exact Or.inr rfl
      · exact Or.inl (List.mem_cons_of_mem _ hx)
    · split at h
      · exact absurd h (by simp)
      · rename_i r rest2 hrec
        rw [Option.some.injEq, Prod.mk.injEq] at h
        obtain ⟨rfl, rfl⟩ := h
        obtain ⟨⟨d0, hd0, hq0, hd2⟩, hmem⟩ := ih hrec
        refine ⟨⟨d0, List.mem_cons_of_mem _ hd0, hq0, hd2⟩, ?_⟩
        intro x hx
        rcases List.mem_cons.1 hx with rfl | hx
        · exact Or.inl (List.mem_cons_self _ _)
        · rcases hmem x hx with h | h
          · exact Or.inl (List.mem_cons_of_mem _ h)
          · exact Or.inr h

/-- The PUT patch never carries an identifier field. -/
theorem putPatch_keys (body : JObj) (now : Int) (x : String × JVal)
    (hx : x ∈ putPatch body now) :
    x.1 ≠ "_id" ∧ x.1 ≠ "list" ∧ x.1 ≠ "key" := by
  unfold putPatch at hx
  rcases mem_setField hx with rfl | hx
  · exact ⟨show "updatedAt" ≠ "_id" by decide,
      show "updatedAt" ≠ "list" by decide,
      show "updatedAt" ≠ "key" by decide⟩
  · obtain ⟨hk, hx⟩ := mem_delField hx
    obtain ⟨hl, hx⟩ := mem_delField hx
    obtain ⟨hi, -⟩ := mem_delField hx
    exact ⟨hi, hl, hk⟩

/-- The POST payload carries the path list value. -/
theorem entityPayload_list (body : JObj) (list key : String) (now : Int) :
    getField (entityPayload body list key now) "list" =
      some (.str list) := by
  unfold entityPayload
  split
  · rw [getField_setField_ne "createdAt" "list" (by decide)]
    unfold entityStamped
    rw [getField_setField_ne "updatedAt" "list" (by decide)]
    rw [getField_setField_ne "key" "list" (by decide)]
    exact getField_setField_self _ _ _
  · unfold entityStamped
    rw [getField_setField_ne "updatedAt" "list" (by decide)]
    rw [getField_setField_ne "key" "list" (by decide)]
    exact getField_setField_self _ _ _

/-- The POST payload carries the path key value. -/
theorem entityPayload_key (body : JObj) (list key : String) (now : Int) :
    getField (entityPayload body list key now) "key" = some (.str key) := by
  unfold entityPayload
  split
  · rw [getField_setField_ne "createdAt" "key" (by decide)]
    unfold entityStamped
    rw [getField_setField_ne "updatedAt" "key" (by decide)]
    exact getField_setField_self _ _ _
  · unfold entityStamped
    rw [getField_setField_ne "updatedAt" "key" (by decide)]
    exact getField_setField_self _ _ _

/-- Claim C9: stored entity identifiers always come from the URL path:
POST forces the list and key fields of the inserted document to the path
parameters whatever the body contains, and PUT strips the id, list and key
fields from the patch, so an update never changes a stored identifier. -/
theorem entity_identifiers_from_path (list key : String) (body : JObj)
    (now : Int) :
    (getField (entityPayload body list key now) "list" =
        some (JVal.str list) ∧
      getField (entityPayload body list key now) "key" =
        some (JVal.str key)) ∧
    (∀ (st : List JObj) (r : ApiResponse JObj) (st2 : List JObj),
      postEntity st list key body now = (r, st2) →
      ∀ d ∈ st2, d ∈ st ∨ d = entityPayload body list key now) ∧
    (∀ (st : List JObj) (r : ApiResponse JObj) (st2 : List JObj),
      putEntity st list key body now = (r, st2) →
      ∀ d2 ∈ st2, d2 ∈ st ∨
        ∃ d ∈ st, entMatches list key d = true ∧
          getField d2 "_id" = getField d "_id" ∧
          getField d2 "list" = some (JVal.str list) ∧
          getField d2 "key" = some (JVal.str key)) := by
  refine ⟨⟨entityPayload_list body list key now,
    entityPayload_key body list key now⟩, ?_, ?_⟩
  · intro st r st2 h d hd
    unfold postEntity at h
    split at h
    · rw [Prod.mk.injEq] at h
      obtain ⟨-, rfl⟩ := h
      exact Or.inl hd
    · split at h
      · rw [Prod.mk.injEq] at h
        obtain ⟨-, rfl⟩ := h
        exact Or.inl hd
      · rw [Prod.mk.injEq] at h
        obtain ⟨-, rfl⟩ := h
        rcases List.mem_append.1 hd with hd | hd
        · exact Or.inl hd
        · rcases List.mem_singleton.1 hd with rfl
          exact Or.inr rfl
  · intro st r st2 h d2 hd2
    unfold putEntity at h
    split at h
    · rw [Prod.mk.injEq] at h
      obtain ⟨-, rfl⟩ := h
      exact Or.inl hd2
    · split at h
      · rw [Prod.mk.injEq] at h
        obtain ⟨-, rfl⟩ := h
        exact Or.inl hd2
      · rename_i r2 l2 hrec
        rw [Prod.mk.injEq] at h
        obtain ⟨-, rfl⟩ := h
        obtain ⟨⟨d, hd, hq, hupd⟩, hmem⟩ := findOneAndUpdateSet_spec hrec
        rcases hmem d2 hd2 with hm | hm
        · exact Or.inl hm
        · have hqs := hq
          simp only [entMatches, Bool.and_eq_true, decide_eq_true_eq] at hqs
          have hnoid : ∀ x ∈ putPatch body now, x.1 ≠ "_id" :=
            fun x hx => (putPatch_keys body now x hx).1
          have hnolist : ∀ x ∈ putPatch body now, x.1 ≠ "list" :=
            fun x hx => (putPatch_keys body now x hx).2.1
          have hnokey : ∀ x ∈ putPatch body now, x.1 ≠ "key" :=
            fun x hx => (putPatch_keys body now x hx).2.2
          refine Or.inr ⟨d, hd, hq, ?_, ?_, ?_⟩
          · rw [hm, hupd, getField_applySet_ne _ _ _ hnoid]
          · rw [hm, hupd, getField_applySet_ne _ _ _ hnolist]
            exact hqs.1
          · rw [hm, hupd, getField_applySet_ne _ _ _ hnokey]
            exact hqs.2

/-- Witness for C9: a body supplying its own identifiers is stored with the
path identifiers. -/
theorem entity_identifiers_from_path_witness :
    getField (entityPayload exEntBody "l" "k" 3) "list" =
      some (JVal.str "l") ∧
    (entityPayload exEntBody "l" "k" 3 ∈ ([] : List JObj) ∨
      entityPayload exEntBody "l" "k" 3 =
        entityPayload exEntBody "l" "k" 3) :=
  ⟨(entity_identifiers_from_path "l" "k" exEntBody 3).1.1,
   (entity_identifiers_from_path "l" "k" exEntBody 3).2.1 []
     (.ok 201 (stripId (entityPayload exEntBody "l" "k" 3)))
     ([] ++ [entityPayload exEntBody "l" "k" 3]) (by decide)
     (entityPayload exEntBody "l" "k" 3) (by decide)⟩

/-! City key formatting. -/

/-- Claim C10: the city key formatter is a total deterministic string
function matching the claimed description, splitting on dashes and dropping
empty tokens, treating a final two-character token as a state code when at
least two tokens remain, and title-casing otherwise; a key with no
non-empty tokens yields an empty display name, which makes GET cities
answer 400 bad request. -/
theorem city_key_display_name_correct :
    (∀ key : String, cityKeyToDisplayName key = cityKeyClaimedName key) ∧
    (∀ key : String, tokensOfKey key = [] →
      cityKeyToDisplayName key = "") ∧
    (∀ (st : ContentState) (key : String), cityKeyToDisplayName key = "" →
      getCities st key = .err 400 ⟨"bad_request", "Missing city key"⟩) := by
  refine ⟨?_, ?_, ?_⟩
  · intro key
    unfold cityKeyToDisplayName cityKeyClaimedName
    cases htoks : tokensOfKey key with
    | nil => simp [joinSpace]
    | cons t ts =>
      cases ts with
      | nil => simp
      | cons t2 ts2 =>
        have hlen : 2 ≤ (t :: t2 :: ts2).length := by
          simp only [List.length_cons]
          omega
        simp [hlen, List.dropLast]
  · intro key h
    unfold cityKeyToDisplayName
    rw [h]
    simp
  · intro st key h
    unfold getCities
    rw [h]
    simp

/-- Witness for C10: a two-word city key formats identically under code and
claim, and an all-dash key is rejected by GET cities. -/
theorem city_key_display_name_correct_witness :
    cityKeyToDisplayName "den-haag" = cityKeyClaimedName "den-haag" ∧
    getCities exContent "---" =
      .err 400 ⟨"bad_request", "Missing city key"⟩ :=
  ⟨city_key_display_name_correct.1 "den-haag",
   city_key_display_name_correct.2.2 exContent "---" (by decide)⟩

end AndrewzcApi
